import Mathlib

/-!
Verification development for the `hiercmd` crate (hierarchical command-line
framework): a shallow embedding of `src/table.rs` (the table engine) and the
relevant parts of `src/lib.rs` (the command-tree dispatcher), together with
theorems settling the specification claims.

Modelling conventions:
* `u64`/`usize` values are modelled as `Nat` (no arithmetic in the embedded
  code can overflow `u64` for the inputs the theorems quantify over, and no
  wrap-around arithmetic occurs in the source).
* `std::time::Duration` is modelled as a pair of seconds and nanoseconds,
  matching its `Ord` instance (lexicographic on `(secs, nanos)`).
* `HashMap<String, Value>` (the per-row store) is modelled as an association
  list with replace-on-insert semantics; only `get`/`insert` are used by the
  source, so iteration order is irrelevant.
* Rust `panic!` / `.expect()` / `.unwrap()` sites are modelled by `Option`:
  a `none` result marks a run that would have panicked.
* Rust `Vec::sort_by` is a stable sort; it is modelled as a stable sort
  (`List.insertionSort`), which agrees with any stable sort for the total
  preorders arising under the theorems' hypotheses.
* `str::to_lowercase` / `to_uppercase` / `trim` / `char::is_whitespace` are
  modelled by `String.toLower` / `String.toUpper` / `String.trim` /
  `Char.isWhitespace`; these agree on ASCII, which is all the embedded
  comparisons and the theorems exercise.
-/

/-- Model of `Value` (table.rs): a typed cell value.  `S` is text, `U` an
unsigned integer, `B` a byte count, `Age` a duration (seconds, nanoseconds). -/
inductive Value where
  | S (s : String)
  | U (n : Nat)
  | B (n : Nat)
  | Age (secs : Nat) (nanos : Nat)
deriving DecidableEq

/-- Variant tag of a `Value`; used to state the same-shape side conditions of
the sort comparator (the source panics on mismatched variants). -/
inductive VTag where
  | s | u | b | age
deriving DecidableEq

/-- Variant tag of a value. -/
def Value.tag : Value → VTag
  | .S _ => .s
  | .U _ => .u
  | .B _ => .b
  | .Age _ _ => .age

/-- Model of `Column` (table.rs): name, display width, default visibility. -/
structure Column where
  name : String
  width : Nat
  default : Bool
deriving DecidableEq

/-- Model of `Row` (table.rs): a map from column name to value, backed by
`HashMap<String, Value>` in the source. -/
structure Row where
  data : List (String × Value)
deriving DecidableEq

/-- Map lookup (`HashMap::get`). -/
def Row.get (r : Row) (name : String) : Option Value :=
  (r.data.find? (fun p => p.1 == name)).map (fun p => p.2)

/-- Map insert (`HashMap::insert`): replaces any previous value for the key. -/
def Row.insertVal (r : Row) (name : String) (v : Value) : Row :=
  ⟨(name, v) :: r.data.filter (fun p => p.1 != name)⟩

/-- Model of `Row::default()`: the empty row. -/
def Row.empty : Row := ⟨[]⟩

/-- Model of `Row::add_str`. -/
def Row.add_str (r : Row) (name value : String) : Row :=
  r.insertVal name (.S value)

/-- Model of `Row::add_u64`. -/
def Row.add_u64 (r : Row) (name : String) (value : Nat) : Row :=
  r.insertVal name (.U value)

/-- Model of `Row::add_bytes`. -/
def Row.add_bytes (r : Row) (name : String) (value : Nat) : Row :=
  r.insertVal name (.B value)

/-- Model of `Row::add_age` (a `Duration` is a seconds/nanoseconds pair). -/
def Row.add_age (r : Row) (name : String) (secs nanos : Nat) : Row :=
  r.insertVal name (.Age secs nanos)

/-- Model of `SortOrder` (table.rs): one sort key. -/
structure SortOrder where
  column : String
  ascending : Bool
deriving DecidableEq

/-- Lexicographic comparison of char lists by code point; Rust `str::cmp` is
byte-wise lexicographic comparison of UTF-8, which coincides with code-point
lexicographic order. -/
def cmpCharList : List Char → List Char → Ordering
  | [], [] => .eq
  | [], _ :: _ => .lt
  | _ :: _, [] => .gt
  | a :: as, b :: bs =>
    match compare a.toNat b.toNat with
    | .eq => cmpCharList as bs
    | o => o

/-- Model of `String::cmp` (Rust `Ord` on `String`). -/
def strCmp (a b : String) : Ordering :=
  cmpCharList a.data b.data

/-- Comparison of `(secs, nanos)` pairs: Rust `Ord` on `Duration`. -/
def cmpNatPair (a b : Nat × Nat) : Ordering :=
  match compare a.1 b.1 with
  | .eq => compare a.2 b.2
  | o => o

/-- Ascending comparison of two values of the same variant (the `a.cmp(b)`
arms of the sort comparator in `Table::output`); `none` models the
`panic!("Datums in a column must be same shape")` arm. -/
def vcmp : Value → Value → Option Ordering
  | .S a, .S b => some (strCmp a b)
  | .U a, .U b => some (compare a b)
  | .B a, .B b => some (compare a b)
  | .Age s1 n1, .Age s2 n2 => some (cmpNatPair (s1, n1) (s2, n2))
  | _, _ => none

/-- One sort key applied to two values: ascending uses `a.cmp(b)`, descending
uses `b.cmp(a)`, exactly as in the comparator of `Table::output`. -/
def cmpValue (so : SortOrder) (a b : Value) : Option Ordering :=
  if so.ascending then vcmp a b else vcmp b a

/-- Multi-key comparator of `Table::output`: each `(column, direction)` pair
is tried in order, the first non-equal comparison decides, rows equal under
every pair compare equal.  `none` models a panic (missing sort value or
mismatched variants). -/
def cmpRows (order : List SortOrder) (a b : Row) : Option Ordering :=
  match order with
  | [] => some .eq
  | so :: rest =>
    match a.get so.column, b.get so.column with
    | some av, some bv =>
      match cmpValue so av bv with
      | some .eq => cmpRows rest a b
      | some o => some o
      | none => none
    | _, _ => none

/-- Row order used by the sort in `Table::output`: `sort_by` sorts so that
the comparator never returns `Greater` on an adjacent pair. -/
def rowLE (order : List SortOrder) (a b : Row) : Prop :=
  cmpRows order a b ≠ some Ordering.gt

instance (order : List SortOrder) : DecidableRel (rowLE order) :=
  fun a b => by unfold rowLE; infer_instance

/-- Model of the `self.data.sort_by(...)` step of `Table::output`: a stable
sort by the multi-key comparator. -/
def sortRows (order : List SortOrder) (rows : List Row) : List Row :=
  List.insertionSort (rowLE order) rows

/-- Spaces of a given length. -/
def spaces (n : Nat) : String :=
  String.mk (List.replicate n ' ')

/-- Rust `format!("{:width$}", s)` for a string: left-aligned, space-padded
to `width` characters (never truncates). -/
def padRight (width : Nat) (s : String) : String :=
  s ++ spaces (width - s.length)

/-- Rust `format!("{:w$}", n)` for an integer: right-aligned, space-padded. -/
def padNumLeft (width : Nat) (n : Nat) : String :=
  spaces (width - (toString n).length) ++ toString n

/-- Rust `format!("{:0w$}", n)` for an integer: right-aligned, zero-padded. -/
def zeroPadLeft (width : Nat) (n : Nat) : String :=
  String.mk (List.replicate (width - (toString n).length) '0') ++ toString n

/-- Rust `str::trim_end`: drop trailing whitespace. -/
def trimTrailing (s : String) : String :=
  String.mk (s.data.reverse.dropWhile Char.isWhitespace).reverse

/-- Replace every tab with a space (`data.replace('\t', " ")`). -/
def tabToSpace (s : String) : String :=
  String.mk (s.data.map (fun c => if c = '\t' then ' ' else c))

/-- Rendering of `format!("{:.02}", (num as f64) / (den as f64))` followed by
nothing: the fraction `num / den` to two decimal places, rounding half to
even.  In the source `den` is a power of two (2^10, 2^20 or 2^30) so the
`f64` division is exact for `num < 2^53`, and Rust's fixed-precision display
rounds the exact value half to even; this model is exact on that range (and
every theorem that quantifies over byte counts restricts to it). -/
def fmt2dec (num den : Nat) : String :=
  let q := num * 100 / den
  let r := num * 100 % den
  let cents :=
    if den < 2 * r then q + 1
    else if 2 * r < den then q
    else if q % 2 = 0 then q else q + 1
  toString (cents / 100) ++ "." ++ zeroPadLeft 2 (cents % 100)

/-- Byte-count rendering of `Table::output` (the `Value::B` arm): strictly
above 1 GiB ⇒ `"{:.02}G"`, strictly above 1 MiB ⇒ `"{:.02}M"`, strictly
above 1 KiB ⇒ `"{:.02}K"`, otherwise (or in parseable mode) the raw
integer. -/
def formatBytes (parseable : Bool) (b : Nat) : String :=
  if ¬parseable ∧ 1024 * 1024 * 1024 < b then
    fmt2dec b (1024 * 1024 * 1024) ++ "G"
  else if ¬parseable ∧ 1024 * 1024 < b then
    fmt2dec b (1024 * 1024) ++ "M"
  else if ¬parseable ∧ 1024 < b then
    fmt2dec b 1024 ++ "K"
  else
    toString b

/-- Seconds in a minute (table.rs `MINUTE`). -/
def MINUTE : Nat := 60
/-- Seconds in an hour (table.rs `HOUR`). -/
def HOUR : Nat := 60 * MINUTE
/-- Seconds in a day (table.rs `DAY`). -/
def DAY : Nat := 24 * HOUR
/-- Seconds in a year (table.rs `YEAR`). -/
def YEAR : Nat := 365 * DAY
/-- Seconds in a thirty-day month (table.rs `MONTH`). -/
def MONTH : Nat := 30 * DAY

/-- Duration rendering of `Table::output` (the `Value::Age` arm); only the
whole seconds of the duration are consulted (`d.as_secs()`). -/
def formatAge (parseable : Bool) (secs : Nat) : String :=
  if parseable then
    toString secs
  else if secs ≥ YEAR then
    padNumLeft 2 (secs / YEAR) ++ "y" ++
      zeroPadLeft 2 ((secs - YEAR * (secs / YEAR)) / MONTH) ++ "M"
  else if secs ≥ 99 * DAY then
    padNumLeft 2 (secs / MONTH) ++ "M" ++
      zeroPadLeft 2 ((secs - MONTH * (secs / MONTH)) / DAY) ++ "d"
  else if secs ≥ DAY then
    padNumLeft 2 (secs / DAY) ++ "d" ++
      zeroPadLeft 2 ((secs - DAY * (secs / DAY)) / HOUR) ++ "h"
  else if secs ≥ HOUR then
    padNumLeft 2 (secs / HOUR) ++ "h" ++
      zeroPadLeft 2 ((secs - HOUR * (secs / HOUR)) / MINUTE) ++ "m"
  else if secs ≥ MINUTE then
    padNumLeft 2 (secs / MINUTE) ++ "m" ++
      zeroPadLeft 2 (secs - MINUTE * (secs / MINUTE)) ++ "s"
  else
    toString secs ++ "s"

/-- Cell rendering in `Table::output`: dispatch on the value variant. -/
def renderValue (parseable : Bool) : Value → String
  | .S s => s
  | .U n => toString n
  | .B b => formatBytes parseable b
  | .Age secs _ => formatAge parseable secs

/-- Model of `Table` (table.rs). -/
structure Table where
  header : Bool
  tabsep : Bool
  parseable : Bool
  outputs : List Column
  output_filter : Option (List String)
  sort_order : Option (List SortOrder)
  data : List Row

/-- Model of `Table::add_row`: append a row. -/
def Table.add_row (t : Table) (row : Row) : Table :=
  { t with data := t.data ++ [row] }

/-- Row sequence after the sort step of `Table::output`. -/
def Table.sortedData (t : Table) : List Row :=
  match t.sort_order with
  | some order => sortRows order t.data
  | none => t.data

/-- Resolution of the output-filter names against the declared columns (the
`filter.iter().map(|n| ... find ... unwrap ...).collect()` expression of
`Table::output`); `none` models the `unwrap` panic on an unresolved name. -/
def resolveFilter (outputs : List Column) : List String → Option (List Column)
  | [] => some []
  | n :: rest =>
    match outputs.find? (fun c => c.name == n) with
    | some c =>
      match resolveFilter outputs rest with
      | some cs => some (c :: cs)
      | none => none
    | none => none

/-- Column-selection step of `Table::output`: an explicit output filter picks
exactly its columns in its order (the source `unwrap`s each lookup: `none`
models that panic); otherwise the default-visible declared columns in
declaration order. -/
def Table.selectedColumns (t : Table) : Option (List Column) :=
  match t.output_filter with
  | some filter => resolveFilter t.outputs filter
  | none => some (t.outputs.filter (fun c => c.default))

/-- Model of `str::to_uppercase` (character-wise; agrees on ASCII). -/
def strUpper (s : String) : String :=
  String.mk (s.data.map Char.toUpper)

/-- Header line of `Table::output` (built whenever `self.header`). -/
def Table.headerLine (t : Table) (cols : List Column) : String :=
  (if t.tabsep then
    String.intercalate "\t" (cols.map (fun c => strUpper c.name))
  else
    trimTrailing (String.join
      (cols.map (fun c => padRight c.width (strUpper c.name) ++ " ")))) ++ "\n"

/-- Cells of one data row for the selected columns, each paired with its
column width; `none` models the `.expect("output value")` panic on a
missing cell. -/
def rowCells (parseable : Bool) (row : Row) : List Column → Option (List (Nat × String))
  | [] => some []
  | c :: rest =>
    match row.get c.name with
    | some v =>
      match rowCells parseable row rest with
      | some cs => some ((c.width, renderValue parseable v) :: cs)
      | none => none
    | none => none

/-- One data line of `Table::output`. -/
def Table.renderRow (t : Table) (cols : List Column) (row : Row) :
    Option String :=
  match rowCells t.parseable row cols with
  | some cells =>
    some ((if t.tabsep then
        String.intercalate "\t" (cells.map (fun c => tabToSpace c.2))
      else
        trimTrailing (String.join
          (cells.map (fun c => padRight c.1 c.2 ++ " ")))) ++ "\n")
  | none => none

/-- Data lines of `Table::output` for a row sequence. -/
def bodyLines (t : Table) (cols : List Column) : List Row → Option (List String)
  | [] => some []
  | row :: rest =>
    match t.renderRow cols row, bodyLines t cols rest with
    | some line, some lines => some (line :: lines)
    | _, _ => none

/-- Model of `Table::output`: sort, select columns, render header and data
lines; `none` models any of the source's panics. -/
def Table.output (t : Table) : Option String :=
  match t.selectedColumns with
  | some cols =>
    match bodyLines t cols t.sortedData with
    | some body =>
      some ((if t.header then t.headerLine cols else "") ++ String.join body)
    | none => none
  | none => none

/-- Model of `TableBuilder` (table.rs). -/
structure TableBuilder where
  header : Bool
  tabsep : Bool
  parseable : Bool
  outputs : List Column
  output_filter : Option (List String)
  sort_order : Option (List SortOrder)
deriving DecidableEq

/-- Model of `TableBuilder::default()`. -/
def TableBuilder.default : TableBuilder :=
  { header := true, tabsep := false, parseable := false, outputs := [],
    output_filter := none, sort_order := none }

/-- Comma-separated column-name list: split on `,`, trim, lower-case each
entry (shared by the `-o`, `-s` and `-S` handling). -/
def parseColList (list : String) : List String :=
  (list.splitOn ",").map (fun col => col.trim.toLower)

/-- Model of `TableBuilder::output_from_list`: a present list replaces the
output filter; `None` leaves the configuration untouched. -/
def TableBuilder.output_from_list (tb : TableBuilder) (list : Option String) :
    TableBuilder :=
  match list with
  | some l => { tb with output_filter := some (parseColList l) }
  | none => tb

/-- Model of `TableBuilder::sort_from_list_asc`: a present list replaces the
whole sort order with ascending keys; `None` leaves it untouched. -/
def TableBuilder.sort_from_list_asc (tb : TableBuilder) (list : Option String) :
    TableBuilder :=
  match list with
  | some l =>
    { tb with sort_order := some ((l.splitOn ",").map (fun col => ⟨col.trim.toLower, true⟩)) }
  | none => tb

/-- Model of `TableBuilder::sort_from_list_desc`: a present list replaces the
whole sort order with descending keys; `None` leaves it untouched. -/
def TableBuilder.sort_from_list_desc (tb : TableBuilder) (list : Option String) :
    TableBuilder :=
  match list with
  | some l =>
    { tb with sort_order := some ((l.splitOn ",").map (fun col => ⟨col.trim.toLower, false⟩)) }
  | none => tb

/-- Model of `TableBuilder::add_column`: push a column definition. -/
def TableBuilder.add_column (tb : TableBuilder) (name : String) (width : Nat)
    (default : Bool) : TableBuilder :=
  { tb with outputs := tb.outputs ++ [⟨name, width, default⟩] }

/-- Model of `TableBuilder::set_column_default`. -/
def TableBuilder.set_column_default (tb : TableBuilder) (name : String)
    (def_ : Bool) : TableBuilder :=
  { tb with outputs :=
      tb.outputs.map (fun c => if c.name = name then { c with default := def_ } else c) }

/-- Model of `TableBuilder::show_header`. -/
def TableBuilder.show_header (tb : TableBuilder) (show_ : Bool) : TableBuilder :=
  { tb with header := show_ }

/-- Model of `TableBuilder::tab_separated`. -/
def TableBuilder.tab_separated (tb : TableBuilder) (tabsep : Bool) : TableBuilder :=
  { tb with tabsep := tabsep }

/-- Model of `TableBuilder::parseable` (named apart from the field). -/
def TableBuilder.set_parseable (tb : TableBuilder) (parseable : Bool) : TableBuilder :=
  { tb with parseable := parseable }

/-- Model of `TableBuilder::disable_header`. -/
def TableBuilder.disable_header (tb : TableBuilder) (disable : Bool) : TableBuilder :=
  if disable then { tb with header := false } else tb

/-- String order used by `Vec::<String>::sort`. -/
def strLE (a b : String) : Prop := strCmp a b ≠ Ordering.gt

instance : DecidableRel strLE := fun a b => by unfold strLE; infer_instance

/-- Model of `TableBuilder::column_names`: declared names, sorted. -/
def TableBuilder.column_names (tb : TableBuilder) : List String :=
  List.insertionSort strLE (tb.outputs.map (fun o => o.name))

/-- Model of `TableBuilder::missing_column_names`: filter names that resolve
to no declared column, sorted. -/
def TableBuilder.missing_column_names (tb : TableBuilder) : List String :=
  match tb.output_filter with
  | some output_filter =>
    List.insertionSort strLE
      (output_filter.filter (fun n => !(tb.outputs.any (fun o => o.name == n))))
  | none => []

/-- Model of `TableBuilder::build`: snapshot the configuration with no rows. -/
def TableBuilder.build (tb : TableBuilder) : Table :=
  { header := tb.header, tabsep := tb.tabsep, parseable := tb.parseable,
    outputs := tb.outputs, output_filter := tb.output_filter,
    sort_order := tb.sort_order, data := [] }

/-- Model of `OptionPair` (lib.rs): a (short, long) flag pair; an empty
string marks an absent form. -/
structure OptionPair where
  short : String
  long : String
deriving DecidableEq

/-- Model of `OptionPair::has_short`. -/
def OptionPair.has_short (op : OptionPair) : Bool := op.short ≠ ""

/-- Model of `OptionPair::has_long`. -/
def OptionPair.has_long (op : OptionPair) : Bool := op.long ≠ ""

/-- Model of the `Display` impl of `OptionPair`. -/
def OptionPair.display (op : OptionPair) : String :=
  if ¬op.has_short then "--" ++ op.long
  else if ¬op.has_long then "-" ++ op.short
  else "-" ++ op.short ++ " (--" ++ op.long ++ ")"

/-- Model of a `CommandInfo` (lib.rs): name, optional alias, description and
visibility.  The handler function pointer is not representable and no claim
consults it, so it is omitted. -/
structure CommandInfo where
  name : String
  alias_ : Option String
  desc : String
  visible : Bool
deriving DecidableEq

/-- One registration made against the `getopts::Options` black box; the
claims only consult which options a level registered, so the schema is kept
as the registration list. -/
inductive OptDecl where
  | optflag (short long desc : String)
  | optopt (short long desc hint : String)
deriving DecidableEq

/-- Model of `Level` (lib.rs).  `ctx` is the consumer context value (field
`private` in the source); the `getopts::Options` value is modelled by the
list of registrations made against it. -/
structure Level (C : Type) where
  names : List String
  usage_args : Option String
  usage_opts : Bool
  args : Option (List String)
  commands : List CommandInfo
  options : List OptDecl
  options_required : Option (List OptionPair)
  options_mutex : Option (List (List OptionPair))
  table : Option TableBuilder
  lazy_columns : Bool
  ctx : C

/-- Model of `Level::new_sub`: fresh options with the standard `--help`
flag, default usage-args hint, no commands, no table. -/
def Level.new_sub (names : List String) (ctx : C) (args : Option (List String)) :
    Level C :=
  { names := names, usage_args := some "[ARGS...]", usage_opts := false,
    args := args, commands := [],
    options := [.optflag "" "help" "usage information"],
    options_required := none, options_mutex := none, table := none,
    lazy_columns := false, ctx := ctx }

/-- Model of `Level::new`. -/
def Level.new (name : String) (ctx : C) : Level C :=
  Level.new_sub [name] ctx none

/-- Registrations made by `Level::ensure_table` the first time table mode is
activated: the standard table flags `-s`, `-S`, `-o`, `-H`, `-p`. -/
def stdTableOptions : List OptDecl :=
  [.optopt "s" "" "sort by column list (asc)" "COLUMNS",
   .optopt "S" "" "sort by column list (desc)" "COLUMNS",
   .optopt "o" "" "output column list" "COLUMNS",
   .optflag "H" "" "no header",
   .optflag "p" "" "print numbers in parseable (exact) format"]

/-- Model of `Level::ensure_table`: on the first call install a default
`TableBuilder` and register the standard table flags; afterwards leave the
level unchanged (the table itself is then mutated by the caller). -/
def Level.ensure_table (l : Level C) : Level C :=
  match l.table with
  | none =>
    { l with table := some TableBuilder.default,
             options := l.options ++ stdTableOptions,
             usage_opts := true }
  | some _ => l

/-- Model of `Level::add_column`: ensure table mode, then push the column
onto the builder. -/
def Level.add_column (l : Level C) (name : String) (width : Nat)
    (default : Bool) : Level C :=
  let l := l.ensure_table
  { l with table := l.table.map (fun tb => tb.add_column name width default) }

/-- Model of `Level::reqopt`: record the pair in the required set and
register the option. -/
def Level.reqopt (l : Level C) (short long desc hint : String) : Level C :=
  { l with
    options_required := some ((l.options_required.getD []) ++ [⟨short, long⟩]),
    usage_opts := true,
    options := l.options ++ [.optopt short long desc hint] }

/-- Model of `Level::mutually_exclusive`: record one group of option pairs. -/
def Level.mutually_exclusive (l : Level C) (pairs : List (String × String)) :
    Level C :=
  { l with options_mutex := some ((l.options_mutex.getD []) ++ [pairs.map (fun p => ⟨p.1, p.2⟩)]) }

/-- Result of the black-box tokenizer (`getopts::Matches`) as consulted by
`Level::parse` and `Level::select`: the free (positional) arguments, flag
presence, and option values. -/
structure Matches where
  free : List String
  present : String → Bool
  opt_str : String → Option String

/-- Required-option check of `Level::parse`: the declared required options
present under neither their short nor their long form, in declaration
order. -/
def requiredMissing (reqopts : List OptionPair) (present : String → Bool) :
    List OptionPair :=
  reqopts.filter
    (fun op => ¬((op.has_short ∧ present op.short) ∨ (op.has_long ∧ present op.long)))

/-- Required-option check of `Level::parse`: `some` is the bad-arguments
usage error naming every missing option, joined by commas. -/
def requiredCheck (reqopts : List OptionPair) (present : String → Bool) :
    Option String :=
  if ((requiredMissing reqopts present).map OptionPair.display).isEmpty then none
  else some ("required options missing: " ++
    String.intercalate ", " ((requiredMissing reqopts present).map OptionPair.display))

/-- Members of one mutually-exclusive group that are present (by a non-empty
short or long form), as collected by `Level::parse`. -/
def mutexConflicts (group : List OptionPair) (present : String → Bool) :
    List OptionPair :=
  group.filter
    (fun opt => (opt.short ≠ "" ∧ present opt.short) ∨ (opt.long ≠ "" ∧ present opt.long))

/-- Mutually-exclusive check of `Level::parse`: the first group with more
than one present member yields a bad-arguments usage error naming the
conflicting options joined by `" and "`. -/
def mutexCheck : List (List OptionPair) → (String → Bool) → Option String
  | [], _ => none
  | group :: rest, present =>
    if ((mutexConflicts group present).map OptionPair.display).length > 1 then
      some (String.intercalate " and "
        ((mutexConflicts group present).map OptionPair.display) ++ " are mutually exclusive")
    else
      mutexCheck rest present

/-- Table-flag processing of `Level::parse`: the exact chain
`output_from_list(-o) . sort_from_list_asc(-s) . sort_from_list_desc(-S)
. show_header(!-H) . tab_separated(-H) . parseable(-p)`. -/
def applyTableOptions (tb : TableBuilder) (o s S : Option String) (H p : Bool) :
    TableBuilder :=
  (((((tb.output_from_list o).sort_from_list_asc s).sort_from_list_desc S).show_header
      (!H)).tab_separated H).set_parseable p

/-- Outcome of `Level::parse` after a successful tokenize: help shown, a
bad-arguments usage error (usage plus `ERROR:` line and exit 1 in the
source), or the matches together with the configured table. -/
inductive ParseOutcome where
  | helpShown
  | badArgs (msg : String)
  | ok (free : List String) (table : Option TableBuilder)
deriving DecidableEq

/-- Model of the validation part of `Level::parse`, applied to the result of
the black-box tokenizer: help short-circuit, required-option check,
mutually-exclusive check, then table-flag processing with the
invalid-column check. -/
def Level.parseChecks (l : Level C) (m : Matches) : ParseOutcome :=
  if m.present "help" then .helpShown
  else
    match (match l.options_required with
           | some reqopts => requiredCheck reqopts m.present
           | none => none) with
    | some msg => .badArgs msg
    | none =>
      match (match l.options_mutex with
             | some groups => mutexCheck groups m.present
             | none => none) with
      | some msg => .badArgs msg
      | none =>
        match l.table with
        | some tb =>
          let tb := applyTableOptions tb (m.opt_str "o") (m.opt_str "s")
            (m.opt_str "S") (m.present "H") (m.present "p")
          if ¬l.lazy_columns ∧ tb.missing_column_names ≠ [] then
            .badArgs ("invalid column names: " ++
              String.intercalate ", " tb.missing_column_names)
          else
            .ok m.free (some tb)
        | none => .ok m.free none

/-- Model of `Selection` (lib.rs): the context, the level's command path,
the chosen command, and the positional arguments of the parse (the source
keeps the whole `getopts::Matches`; only its `free` list is consulted). -/
structure Selection (C : Type) where
  ctx : C
  names : List String
  command : CommandInfo
  free : List String

/-- Outcome of `Level::select` after a successful parse. -/
inductive SelectOutcome (C : Type) where
  | noCommands
  | chooseCommand
  | notUnderstood (msg : String)
  | selected (s : Selection C)

/-- Command resolution of `Level::select`: scan the registered commands in
registration order and take the first whose name equals the token, or whose
alias (when declared) equals the token. -/
def resolveCommand (commands : List CommandInfo) (want : String) :
    Option CommandInfo :=
  commands.find? (fun c => c.name == want || c.alias_ == some want)

/-- Model of `Level::select` applied to the free arguments produced by the
black-box tokenizer: require at least one registered command, require a
positional argument, resolve it, and either build the `Selection` or fail
with the `command "..." not understood` usage error. -/
def Level.selectFrom (l : Level C) (free : List String) : SelectOutcome C :=
  if l.commands.isEmpty then .noCommands
  else
    match free with
    | [] => .chooseCommand
    | want :: rest =>
      match resolveCommand l.commands want with
      | some command => .selected ⟨l.ctx, l.names, command, want :: rest⟩
      | none => .notUnderstood ("command \"" ++ want ++ "\" not understood")

/-- Model of `Selection::run`'s construction of the child level: path
extended by the chosen command's name, argument slice `free[1..]` (the
positionals after the consumed command token), inherited context. -/
def Selection.child (s : Selection C) : Level C :=
  Level.new_sub (s.names ++ [s.command.name]) s.ctx (some (s.free.drop 1))

/-! ## Claim C2: byte-count humanization boundaries -/

/-- C2 counterexample: the byte humanization of `Table::output` uses strict
`>` comparisons, so exactly 1 KiB is NOT humanized: 1024 renders as `"1024"`
(not `"1.00K"` as claimed), 1048576 renders as `"1024.00K"` (not `"1.00M"`),
and 1073741824 renders as `"1024.00M"` (not `"1.00G"`). -/
theorem C2_counterexample :
    formatBytes false 1024 = "1024" ∧ formatBytes false 1024 ≠ "1.00K" ∧
    formatBytes false 1048576 = "1024.00K" ∧ formatBytes false 1048576 ≠ "1.00M" ∧
    formatBytes false 1073741824 = "1024.00M" ∧ formatBytes false 1073741824 ≠ "1.00G" := by
  refine ⟨by decide, by decide, by decide, by decide, by decide, by decide⟩

/-- C2 (amended): in non-parseable mode the byte humanization buckets are
strict: 1023 and 1024 render raw; values strictly above 1 KiB render as
`"{kb:.2}K"`, strictly above 1 MiB as `"{mb:.2}M"`, strictly above 1 GiB as
`"{gb:.2}G"` (two decimal places, so 1048576 is `"1024.00K"` and 1073741824
is `"1024.00M"`); in parseable mode every byte count renders as the raw
decimal integer.  The quantified humanized-form conjuncts carry the
`b < 2^53` bound under which the `f64` arithmetic of the source is exact. -/
theorem C2_bytes_humanization :
    formatBytes false 1023 = "1023" ∧
    formatBytes false 1024 = "1024" ∧
    formatBytes false 1025 = "1.00K" ∧
    formatBytes false 1048576 = "1024.00K" ∧
    formatBytes false 1073741824 = "1024.00M" ∧
    (∀ b : Nat, formatBytes true b = toString b) ∧
    (∀ b : Nat, b ≤ 1024 → formatBytes false b = toString b) ∧
    (∀ b : Nat, 1024 < b → b ≤ 1024 * 1024 → b < 2 ^ 53 →
      formatBytes false b = fmt2dec b 1024 ++ "K") ∧
    (∀ b : Nat, 1024 * 1024 < b → b ≤ 1024 * 1024 * 1024 → b < 2 ^ 53 →
      formatBytes false b = fmt2dec b (1024 * 1024) ++ "M") ∧
    (∀ b : Nat, 1024 * 1024 * 1024 < b → b < 2 ^ 53 →
      formatBytes false b = fmt2dec b (1024 * 1024 * 1024) ++ "G") := by
  refine ⟨by decide, by decide, by decide, by decide, by decide, ?_, ?_, ?_, ?_, ?_⟩
  · intro b
    simp [formatBytes]
  · intro b hb
    have h1 : ¬(1024 * 1024 * 1024 < b) := by omega
    have h2 : ¬(1024 * 1024 < b) := by omega
    have h3 : ¬(1024 < b) := by omega
    simp [formatBytes, h1, h2, h3]
  · intro b hb1 hb2 _
    have h1 : ¬(1024 * 1024 * 1024 < b) := by omega
    have h2 : ¬(1024 * 1024 < b) := by omega
    simp [formatBytes, h1, h2, hb1]
  · intro b hb1 hb2 _
    have h1 : ¬(1024 * 1024 * 1024 < b) := by omega
    simp [formatBytes, h1, hb1]
  · intro b hb1 _
    simp [formatBytes, hb1]

/-- C2 witness: the quantified conjuncts of `C2_bytes_humanization`
instantiated at concrete byte counts. -/
theorem C2_witness :
    formatBytes true 1073741824 = toString 1073741824 ∧
    formatBytes false 512 = toString 512 ∧
    formatBytes false 2048 = fmt2dec 2048 1024 ++ "K" ∧
    formatBytes false 2097152 = fmt2dec 2097152 (1024 * 1024) ++ "M" ∧
    formatBytes false 2147483648 = fmt2dec 2147483648 (1024 * 1024 * 1024) ++ "G" := by
  have h := C2_bytes_humanization
  exact ⟨h.2.2.2.2.2.1 1073741824,
         h.2.2.2.2.2.2.1 512 (by decide),
         h.2.2.2.2.2.2.2.1 2048 (by decide) (by decide) (by decide),
         h.2.2.2.2.2.2.2.2.1 2097152 (by decide) (by decide) (by decide),
         h.2.2.2.2.2.2.2.2.2 2147483648 (by decide) (by decide)⟩

/-! ## Claim C3: duration humanization boundaries -/

/-- C3 counterexample: 277200 seconds is 3 days and 5 hours (not 3 days and
7 hours: the spec's `86400*3 + 7*3600` is 284400), and the leading unit of
the day/hour bucket is right-aligned in a 2-character field, so
`Table::output` renders 277200 seconds as `" 3d05h"`, not `"3d07h"`. -/
theorem C3_counterexample :
    formatAge false 277200 = " 3d05h" ∧ formatAge false 277200 ≠ "3d07h" := by
  exact ⟨by decide, by decide⟩

/-- C3 (amended): non-parseable durations are bucketed by magnitude with
two-unit compound formatting, the leading unit right-aligned in a
2-character space-padded field and the trailing unit zero-padded to two
digits: 47s renders `"47s"`, 803s renders `"13m23s"`, 48240s renders
`"13h24m"`, 277200s (3 days 5 hours) renders `" 3d05h"`, 284400s (3 days 7
hours) renders `" 3d07h"`, 86401s renders `" 1d00h"`, and every duration of
at least one 365-day year renders as `"{y:2}y{M:02}M"` with 30-day months;
in parseable mode the output is the raw whole number of seconds. -/
theorem C3_age_humanization :
    formatAge false 47 = "47s" ∧
    formatAge false 803 = "13m23s" ∧
    formatAge false 48240 = "13h24m" ∧
    formatAge false 277200 = " 3d05h" ∧
    formatAge false 284400 = " 3d07h" ∧
    formatAge false 86401 = " 1d00h" ∧
    (∀ s : Nat, YEAR ≤ s → formatAge false s =
      padNumLeft 2 (s / YEAR) ++ "y" ++
        zeroPadLeft 2 ((s - YEAR * (s / YEAR)) / MONTH) ++ "M") ∧
    (∀ s : Nat, formatAge true s = toString s) := by
  refine ⟨by decide, by decide, by decide, by decide, by decide, by decide, ?_, ?_⟩
  · intro s hs
    simp only [formatAge]
    rw [if_neg (by simp), if_pos hs]
  · intro s
    simp [formatAge]

/-- C3 witness: the quantified conjuncts of `C3_age_humanization`
instantiated at concrete durations (two years, three 30-day months). -/
theorem C3_witness :
    formatAge false 70848000 =
      padNumLeft 2 (70848000 / YEAR) ++ "y" ++
        zeroPadLeft 2 ((70848000 - YEAR * (70848000 / YEAR)) / MONTH) ++ "M" ∧
    formatAge false 70848000 = " 2y03M" ∧
    formatAge true 70848000 = toString 70848000 := by
  have h := C3_age_humanization
  exact ⟨h.2.2.2.2.2.2.1 70848000 (by decide), by decide, h.2.2.2.2.2.2.2 70848000⟩

/-! ## Claim C4: column selection -/

/-- Resolution of an output filter: when every filter name resolves to a
declared column, the `unwrap`ped lookups all succeed and produce columns
whose names are exactly the filter list, in the filter's order. -/
theorem findCols_names (outputs : List Column) :
    ∀ (filter : List String), (∀ n ∈ filter, ∃ c ∈ outputs, c.name = n) →
    ∃ cols, resolveFilter outputs filter = some cols ∧
      cols.map Column.name = filter := by
  intro filter
  induction filter with
  | nil => intro _; exact ⟨[], rfl, rfl⟩
  | cons n rest ih =>
    intro h
    obtain ⟨c, hc, hname⟩ := h n (by simp)
    have hfind : (outputs.find? (fun c => c.name == n)).isSome := by
      rw [List.find?_isSome]; exact ⟨c, hc, by simp [hname]⟩
    obtain ⟨c0, hc0⟩ := Option.isSome_iff_exists.mp hfind
    have hc0name : c0.name = n := by
      have := List.find?_some hc0; simpa using this
    obtain ⟨cols, hcols, hnames⟩ := ih (fun m hm => h m (by simp [hm]))
    refine ⟨c0 :: cols, ?_, by simp [hc0name, hnames]⟩
    simp [resolveFilter, hc0, hcols]

/-- C4: with an explicit output filter whose names all resolve,
`Table::output` renders exactly the filter's columns in the filter's order
(whatever each declared column's default-visibility flag is — the statement
quantifies over every table, so over every assignment of those flags);
with no filter it renders exactly the default-visible declared columns in
declaration order. -/
theorem C4_column_selection (t : Table) :
    (∀ filter, t.output_filter = some filter →
      (∀ n ∈ filter, ∃ c ∈ t.outputs, c.name = n) →
      ∃ cols, t.selectedColumns = some cols ∧ cols.map Column.name = filter) ∧
    (t.output_filter = none →
      t.selectedColumns = some (t.outputs.filter (fun c => c.default))) := by
  constructor
  · intro filter hf hnames
    obtain ⟨cols, hm, hn⟩ := findCols_names t.outputs filter hnames
    refine ⟨cols, ?_, hn⟩
    simp only [Table.selectedColumns, hf]
    exact hm
  · intro hf
    simp [Table.selectedColumns, hf]

/-- Table with an output filter, mirroring the `longer_name_rating` unit
test of table.rs (colour deliberately not default-visible, to exercise the
filter overriding the flag). -/
def c4FilterTable : Table :=
  { ((((TableBuilder.default.add_column "id" 8 true).add_column "name" 16 true).add_column
      "colour" 16 false).add_column "rating" 8 true) with
    output_filter := some ["rating", "name"] }.build

/-- Table without an output filter. -/
def c4PlainTable : Table :=
  ((TableBuilder.default.add_column "id" 8 true).add_column "name" 24 false).build

/-- C4 witness: `C4_column_selection` at the two concrete tables. -/
theorem C4_witness :
    c4FilterTable.output_filter = some ["rating", "name"] ∧
    c4FilterTable.selectedColumns.map (fun cols => cols.map Column.name) =
      some ["rating", "name"] ∧
    c4PlainTable.selectedColumns = some (c4PlainTable.outputs.filter (fun c => c.default)) := by
  refine ⟨by decide, ?_, (C4_column_selection c4PlainTable).2 rfl⟩
  obtain ⟨cols, h1, h2⟩ :=
    (C4_column_selection c4FilterTable).1 ["rating", "name"] (by decide) (by decide)
  rw [h1]
  exact congrArg some h2

/-! ## Claim C6: required-option check -/

/-- C6: the required-option check of `Level::parse` passes exactly when
every declared required option is present under its short or its long form;
otherwise it collects every absent option (not just the first) and fails
once with a bad-arguments usage error naming all of them joined by commas,
and `Level::parse` reports that error. -/
theorem C6_required_options {C : Type} (reqopts : List OptionPair)
    (present : String → Bool) :
    (requiredCheck reqopts present = none ↔
      ∀ op ∈ reqopts, (op.has_short ∧ present op.short) ∨ (op.has_long ∧ present op.long)) ∧
    (∀ op, op ∈ requiredMissing reqopts present ↔
      op ∈ reqopts ∧
        ¬((op.has_short ∧ present op.short) ∨ (op.has_long ∧ present op.long))) ∧
    (requiredMissing reqopts present ≠ [] →
      requiredCheck reqopts present =
        some ("required options missing: " ++
          String.intercalate ", " ((requiredMissing reqopts present).map OptionPair.display))) ∧
    (∀ (l : Level C) (m : Matches) (msg : String),
      l.options_required = some reqopts → m.present "help" = false →
      requiredCheck reqopts m.present = some msg →
      l.parseChecks m = .badArgs msg) := by
  refine ⟨?_, ?_, ?_, ?_⟩
  · rw [show (requiredCheck reqopts present = none) ↔
        requiredMissing reqopts present = [] from by
      simp [requiredCheck, List.isEmpty_iff]]
    rw [requiredMissing, List.filter_eq_nil_iff]
    refine forall₂_congr fun op _ => ?_
    simp only [decide_eq_true_eq, not_not]
  · intro op
    simp only [requiredMissing, List.mem_filter, decide_eq_true_eq]
  · intro h
    simp only [requiredCheck]
    rw [if_neg]
    simp only [List.isEmpty_iff, List.map_eq_nil_iff]
    exact h
  · intro l m msg h1 h2 h3
    simp [Level.parseChecks, h1, h2, h3]

/-- Required options of the `withreq` example command (examples/trial.rs). -/
def c6Reqopts : List OptionPair := [⟨"a", "first"⟩, ⟨"", "second"⟩, ⟨"c", ""⟩]

/-- A tokenizer result in which only `-a` is present. -/
def c6Present : String → Bool := fun s => s == "a"

/-- A level declaring the `withreq` required options. -/
def c6Level : Level Unit :=
  { Level.new "trial" () with options_required := some c6Reqopts }

/-- C6 witness: `C6_required_options` at the `withreq` options with only
`-a` present: both `--second` and `-c` are reported, joined by a comma. -/
theorem C6_witness :
    requiredCheck c6Reqopts c6Present =
      some ("required options missing: " ++
        String.intercalate ", " ((requiredMissing c6Reqopts c6Present).map OptionPair.display)) ∧
    requiredCheck c6Reqopts c6Present = some "required options missing: --second, -c" ∧
    Level.parseChecks c6Level ⟨[], c6Present, fun _ => none⟩ =
      .badArgs "required options missing: --second, -c" := by
  have h := @C6_required_options Unit c6Reqopts c6Present
  refine ⟨h.2.2.1 (by decide), by decide, ?_⟩
  exact h.2.2.2 c6Level ⟨[], c6Present, fun _ => none⟩ _ rfl rfl (by decide)

/-! ## Claim C7: mutually-exclusive groups -/

/-- C7: the mutually-exclusive check of `Level::parse` passes exactly when
every declared group has at most one present member; the first group with
more than one present member fails with a bad-arguments usage error naming
that group's present (conflicting) options joined by `" and "`, and
`Level::parse` reports that error. -/
theorem C7_mutually_exclusive {C : Type} (groups : List (List OptionPair))
    (present : String → Bool) :
    (mutexCheck groups present = none ↔
      ∀ g ∈ groups, (mutexConflicts g present).length ≤ 1) ∧
    (∀ op g, op ∈ mutexConflicts g present ↔
      op ∈ g ∧ ((op.short ≠ "" ∧ present op.short) ∨ (op.long ≠ "" ∧ present op.long))) ∧
    (∀ g, groups.find? (fun g => decide ((mutexConflicts g present).length > 1)) = some g →
      mutexCheck groups present =
        some (String.intercalate " and " ((mutexConflicts g present).map OptionPair.display) ++
          " are mutually exclusive")) ∧
    (∀ (l : Level C) (m : Matches) (msg : String),
      l.options_required = none → l.options_mutex = some groups →
      m.present "help" = false → mutexCheck groups m.present = some msg →
      l.parseChecks m = .badArgs msg) := by
  refine ⟨?_, ?_, ?_, ?_⟩
  · induction groups with
    | nil => simp [mutexCheck]
    | cons g rest ih =>
      by_cases hg : ((mutexConflicts g present).map OptionPair.display).length > 1
      · simp only [mutexCheck, if_pos hg]
        simp only [List.length_map] at hg
        simp only [List.mem_cons]
        constructor
        · intro hsome; cases hsome
        · intro hall
          have := hall g (Or.inl rfl)
          omega
      · simp only [mutexCheck, if_neg hg]
        simp only [List.length_map] at hg
        rw [ih]
        simp only [List.mem_cons]
        constructor
        · intro hall g2 hg2
          rcases hg2 with rfl | hg2
          · omega
          · exact hall g2 hg2
        · intro hall g2 hg2
          exact hall g2 (Or.inr hg2)
  · intro op g
    simp [mutexConflicts, List.mem_filter]
  · intro g hfind
    induction groups with
    | nil => simp at hfind
    | cons g0 rest ih =>
      by_cases hg0 : (mutexConflicts g0 present).length > 1
      · rw [List.find?_cons_of_pos _ (by simpa using hg0)] at hfind
        injection hfind with h
        subst h
        simp only [mutexCheck, List.length_map]
        rw [if_pos hg0]
      · rw [List.find?_cons_of_neg _ (by simpa using hg0)] at hfind
        simp only [mutexCheck, List.length_map]
        rw [if_neg hg0]
        exact ih hfind
  · intro l m msg h1 h2 h3 h4
    simp [Level.parseChecks, h1, h2, h3, h4]

/-- One mutually-exclusive group of three short flags. -/
def c7Groups : List (List OptionPair) := [[⟨"a", ""⟩, ⟨"b", ""⟩, ⟨"c", ""⟩]]

/-- A tokenizer result in which `-a` and `-b` are present. -/
def c7Present : String → Bool := fun s => s == "a" || s == "b"

/-- A level declaring the group. -/
def c7Level : Level Unit :=
  { Level.new "trial" () with options_mutex := some c7Groups }

/-- C7 witness: `C7_mutually_exclusive` with `-a` and `-b` both present in a
group `{-a, -b, -c}`: the error names exactly the two present options. -/
theorem C7_witness :
    mutexCheck c7Groups c7Present =
      some (String.intercalate " and "
        ((mutexConflicts [⟨"a", ""⟩, ⟨"b", ""⟩, ⟨"c", ""⟩] c7Present).map OptionPair.display) ++
        " are mutually exclusive") ∧
    mutexCheck c7Groups c7Present = some "-a and -b are mutually exclusive" ∧
    Level.parseChecks c7Level ⟨[], c7Present, fun _ => none⟩ =
      .badArgs "-a and -b are mutually exclusive" := by
  have h := @C7_mutually_exclusive Unit c7Groups c7Present
  refine ⟨h.2.2.1 [⟨"a", ""⟩, ⟨"b", ""⟩, ⟨"c", ""⟩] (by decide), by decide, ?_⟩
  exact h.2.2.2 c7Level ⟨[], c7Present, fun _ => none⟩ _ rfl rfl rfl (by decide)

/-! ## Claim C9: `-S` overrides `-s` -/

/-- C9: in the table-flag processing of `Level::parse`,
`sort_from_list_desc` runs after `sort_from_list_asc` and a present value
replaces the whole sort order, so when both `-s` and `-S` carry values the
resulting sort order comes entirely from the `-S` list (descending keys) and
the `-s` value has no effect at all on the resulting builder; and on a level
whose remaining checks pass, `Level::parse` hands back exactly that
builder. -/
theorem C9_desc_overrides_asc {C : Type} (tb : TableBuilder)
    (o s1 s2 : Option String) (S : String) (H p : Bool) :
    applyTableOptions tb o s1 (some S) H p = applyTableOptions tb o s2 (some S) H p ∧
    (applyTableOptions tb o s1 (some S) H p).sort_order =
      some ((S.splitOn ",").map (fun col => ⟨col.trim.toLower, false⟩)) ∧
    (∀ (l : Level C) (m : Matches) (tb0 : TableBuilder),
      l.table = some tb0 → m.present "help" = false →
      l.options_required = none → l.options_mutex = none → l.lazy_columns = true →
      l.parseChecks m = .ok m.free
        (some (applyTableOptions tb0 (m.opt_str "o") (m.opt_str "s") (m.opt_str "S")
          (m.present "H") (m.present "p")))) := by
  refine ⟨?_, ?_, ?_⟩
  · cases o <;> cases s1 <;> cases s2 <;> rfl
  · cases o <;> cases s1 <;> rfl
  · intro l m tb0 h1 h2 h3 h4 h5
    simp [Level.parseChecks, h1, h2, h3, h4, h5]

/-- A level in table mode with lazy column validation, as used by dynamic
property listings. -/
def c9Level : Level Unit :=
  { (Level.new "trial" ()).ensure_table with lazy_columns := true }

/-- A tokenizer result carrying both `-s id` and `-S name`. -/
def c9Matches : Matches :=
  ⟨[], fun _ => false, fun f => if f = "s" then some "id" else if f = "S" then some "name" else none⟩

/-- C9 witness: `C9_desc_overrides_asc` instantiated: with `-s id -S name`
the parse hands back the builder configured by the chain, whose sort order
is the descending `name` key alone. -/
theorem C9_witness :
    c9Level.parseChecks c9Matches = .ok []
      (some (applyTableOptions TableBuilder.default (c9Matches.opt_str "o")
        (c9Matches.opt_str "s") (c9Matches.opt_str "S") (c9Matches.present "H")
        (c9Matches.present "p"))) ∧
    (applyTableOptions TableBuilder.default none (some "id") (some "name") false false).sort_order =
      some (("name".splitOn ",").map (fun col => ⟨col.trim.toLower, false⟩)) ∧
    (applyTableOptions TableBuilder.default none (some "id") (some "name") false false) =
      (applyTableOptions TableBuilder.default none none (some "name") false false) := by
  have h := @C9_desc_overrides_asc Unit TableBuilder.default none (some "id") none "name" false false
  exact ⟨h.2.2 c9Level c9Matches TableBuilder.default rfl rfl rfl rfl rfl,
         h.2.1, h.1⟩

/-! ## Claim C10: value-adding methods replace per-name -/

/-- C10: each `Row::add_*` method is a map insert for its variant; inserting
under a name that already holds a value silently replaces it, across
variants; a row built this way holds exactly one value for the inserted
name and the other names are untouched; and both the sort comparator and
the row renderer consult a row only through `Row::get`, hence see only the
last value written. -/
theorem C10_row_insert (r : Row) (n : String) (v w : Value) :
    (∀ s, Row.add_str r n s = r.insertVal n (.S s)) ∧
    (∀ u, Row.add_u64 r n u = r.insertVal n (.U u)) ∧
    (∀ u, Row.add_bytes r n u = r.insertVal n (.B u)) ∧
    (∀ sec ns, Row.add_age r n sec ns = r.insertVal n (.Age sec ns)) ∧
    ((r.insertVal n v).insertVal n w).get n = some w ∧
    (∀ m, m ≠ n → ((r.insertVal n v).insertVal n w).get m = (r.insertVal n v).get m) ∧
    ((r.insertVal n v).data.filter (fun p => p.1 == n)).length = 1 ∧
    (∀ r1 r2 : Row, (∀ k, r1.get k = r2.get k) → ∀ order (r3 : Row),
      cmpRows order r1 r3 = cmpRows order r2 r3 ∧ cmpRows order r3 r1 = cmpRows order r3 r2) ∧
    (∀ r1 r2 : Row, (∀ k, r1.get k = r2.get k) → ∀ (t : Table) cols,
      t.renderRow cols r1 = t.renderRow cols r2) := by
  refine ⟨fun _ => rfl, fun _ => rfl, fun _ => rfl, fun _ _ => rfl, ?_, ?_, ?_, ?_, ?_⟩
  · simp [Row.insertVal, Row.get]
  · intro m hm
    have hnm : (n == m) = false := by
      simp only [beq_eq_false_iff_ne, ne_eq]
      exact fun hx => hm hx.symm
    simp [Row.insertVal, Row.get, List.find?_cons, hnm, List.filter_filter]
  · simp [Row.insertVal, List.filter_cons]
  · intro r1 r2 hk order r3
    induction order with
    | nil => exact ⟨rfl, rfl⟩
    | cons so rest ih =>
      simp only [cmpRows, hk so.column]
      obtain ⟨ih1, ih2⟩ := ih
      constructor
      · cases r2.get so.column <;> cases r3.get so.column <;> simp [ih1]
      · cases r3.get so.column <;> cases r2.get so.column <;> simp [ih2]
  · intro r1 r2 hk t cols
    have hc : rowCells t.parseable r1 cols = rowCells t.parseable r2 cols := by
      induction cols with
      | nil => rfl
      | cons c rest ih => simp only [rowCells, hk c.name, ih]
    simp only [Table.renderRow, hc]

/-- C10 witness: `C10_row_insert` instantiated at a row whose `"id"` cell is
overwritten by a different variant; the second write wins, other names are
untouched, and exactly one entry remains for the name. -/
theorem C10_witness :
    ((Row.empty.insertVal "id" (.U 1)).insertVal "id" (.S "x")).get "id" = some (.S "x") ∧
    (((Row.empty.add_str "name" "a").insertVal "id" (.U 1)).insertVal "id" (.S "x")).get "name" =
      ((Row.empty.add_str "name" "a").insertVal "id" (.U 1)).get "name" ∧
    (((Row.empty.insertVal "id" (.U 1)).data.filter (fun p => p.1 == "id")).length = 1) := by
  have h1 := C10_row_insert Row.empty "id" (.U 1) (.S "x")
  have h2 := C10_row_insert (Row.empty.add_str "name" "a") "id" (.U 1) (.S "x")
  exact ⟨h1.2.2.2.2.1, h2.2.2.2.2.2.1 "name" (by decide), h1.2.2.2.2.2.2.1⟩

/-! ## Claim C5: command resolution in `Level::select` -/

/-- Level with two commands: the first registered command has alias `"x"`,
the second has name `"x"`. -/
def c5Level : Level Unit :=
  { Level.new "tool" () with
    commands := [⟨"alpha", some "x", "first command", true⟩,
                 ⟨"x", none, "second command", true⟩] }

/-- C5 counterexample: resolution is a single scan in registration order
matching name-or-alias, not names before aliases: the token `"x"` equals
both the name of the second command and the alias of the first command, yet
`Level::select` resolves it to the first command (`"alpha"`), not to the
command named `"x"` as the claim states. -/
theorem C5_counterexample :
    c5Level.selectFrom ["x"] =
      .selected ⟨(), ["tool"], ⟨"alpha", some "x", "first command", true⟩, ["x"]⟩ ∧
    ("alpha" : String) ≠ "x" := by
  exact ⟨rfl, by decide⟩

/-- C5 (amended): with at least one registered command and a positional
token, `Level::select` scans the registered commands in registration order
and picks the first whose name or alias equals the token (so a token equal
to an earlier command's alias and a later command's name resolves to the
earlier command); a match yields a `Selection` from which the child level is
built with the command path extended by the chosen command's name, the
positional arguments after the consumed token as its argument slice, and the
inherited context; a token matching no name and no alias fails with the
`command "..." not understood` usage error. -/
theorem C5_selection {C : Type} (l : Level C) (want : String) (rest : List String)
    (hne : l.commands ≠ []) :
    (∀ cmd, resolveCommand l.commands want = some cmd →
      l.selectFrom (want :: rest) = .selected ⟨l.ctx, l.names, cmd, want :: rest⟩ ∧
      (Selection.child ⟨l.ctx, l.names, cmd, want :: rest⟩).names = l.names ++ [cmd.name] ∧
      (Selection.child ⟨l.ctx, l.names, cmd, want :: rest⟩).args = some rest ∧
      (Selection.child ⟨l.ctx, l.names, cmd, want :: rest⟩).ctx = l.ctx ∧
      cmd ∈ l.commands ∧ (cmd.name = want ∨ cmd.alias_ = some want)) ∧
    (resolveCommand l.commands want = none →
      l.selectFrom (want :: rest) =
        .notUnderstood ("command \"" ++ want ++ "\" not understood")) := by
  have hne' : l.commands.isEmpty = false := by
    simpa [List.isEmpty_iff] using hne
  constructor
  · intro cmd hcmd
    refine ⟨?_, rfl, rfl, rfl, List.mem_of_find?_eq_some hcmd, ?_⟩
    · simp only [Level.selectFrom, hne', Bool.false_eq_true, if_false]
      rw [hcmd]
    · have := List.find?_some hcmd
      simp only [Bool.or_eq_true, beq_iff_eq] at this
      exact this
  · intro hnone
    simp only [Level.selectFrom, hne', Bool.false_eq_true, if_false]
    rw [hnone]

/-- Level mirroring the sub-command registrations of examples/trial.rs. -/
def c5TrialLevel : Level Unit :=
  { Level.new "trial" () with
    commands := [⟨"info", none, "get information", true⟩,
                 ⟨"thing", some "th", "manage things", true⟩,
                 ⟨"nothing", none, "do nothing", true⟩] }

/-- C5 witness: `C5_selection` at the trial level: the alias token `"th"`
resolves to the `thing` command and the child level extends the path with
the primary name; an unknown token fails with the quoted message. -/
theorem C5_witness :
    c5TrialLevel.selectFrom ["th", "list"] =
      .selected ⟨(), ["trial"], ⟨"thing", some "th", "manage things", true⟩, ["th", "list"]⟩ ∧
    (Selection.child ⟨(), ["trial"], ⟨"thing", some "th", "manage things", true⟩,
      ["th", "list"]⟩).names = ["trial"] ++ ["thing"] ∧
    (Selection.child ⟨(), ["trial"], ⟨"thing", some "th", "manage things", true⟩,
      ["th", "list"]⟩).args = some ["list"] ∧
    c5TrialLevel.selectFrom ["bogus"] =
      .notUnderstood ("command \"" ++ "bogus" ++ "\" not understood") := by
  have h1 := (C5_selection c5TrialLevel "th" ["list"] (by decide)).1
    ⟨"thing", some "th", "manage things", true⟩ (by decide)
  have h2 := (C5_selection c5TrialLevel "bogus" [] (by decide)).2 (by decide)
  exact ⟨h1.1, h1.2.1, h1.2.2.1, h2⟩

/-! ## Claim C8: `add_column` -/

/-- C8 counterexample: `TableBuilder::add_column` is an unconditional
append, not an idempotent one: adding the `"id"` column twice declares it
twice, and the rendered output then shows the column twice, unlike after a
single call. -/
theorem C8_counterexample :
    ((TableBuilder.default.add_column "id" 1 true).add_column "id" 1 true).outputs ≠
      (TableBuilder.default.add_column "id" 1 true).outputs ∧
    ((((TableBuilder.default.add_column "id" 1 true).add_column "id" 1 true).build).add_row
        (Row.empty.add_u64 "id" 1)).output = some "ID ID\n1 1\n" ∧
    (((TableBuilder.default.add_column "id" 1 true).build).add_row
        (Row.empty.add_u64 "id" 1)).output = some "ID\n1\n" := by
  exact ⟨by decide, by decide, by decide⟩

/-- C8 (amended): `TableBuilder::add_column` appends the column definition
unconditionally (a repeated name is declared again, and renders again when
default-visible); on a `Level`, the first `add_column` call installs the
default builder and registers the standard table flags `-s`, `-S`, `-o`,
`-H`, `-p` on the level's option schema, and subsequent calls only append
column definitions without re-registering the flags. -/
theorem C8_add_column {C : Type} (tb : TableBuilder) (l : Level C)
    (n : String) (w : Nat) (d : Bool) (n2 : String) (w2 : Nat) (d2 : Bool)
    (h : l.table = none) :
    (tb.add_column n w d).outputs = tb.outputs ++ [⟨n, w, d⟩] ∧
    (l.add_column n w d).options = l.options ++ stdTableOptions ∧
    (l.add_column n w d).table = some (TableBuilder.default.add_column n w d) ∧
    ((l.add_column n w d).add_column n2 w2 d2).options = (l.add_column n w d).options ∧
    ((l.add_column n w d).add_column n2 w2 d2).table =
      some ((TableBuilder.default.add_column n w d).add_column n2 w2 d2) := by
  refine ⟨rfl, ?_, ?_, ?_, ?_⟩ <;>
    simp [Level.add_column, Level.ensure_table, h]

/-- C8 witness: `C8_add_column` on a fresh level: the first `add_column`
activates the table flags, the second only appends. -/
theorem C8_witness :
    ((Level.new "trial" ()).add_column "id" 8 true).options =
      (Level.new "trial" ()).options ++ stdTableOptions ∧
    (((Level.new "trial" ()).add_column "id" 8 true).add_column "name" 24 true).options =
      ((Level.new "trial" ()).add_column "id" 8 true).options ∧
    (((Level.new "trial" ()).add_column "id" 8 true).add_column "name" 24 true).table =
      some ((TableBuilder.default.add_column "id" 8 true).add_column "name" 24 true) := by
  have h := C8_add_column TableBuilder.default (Level.new "trial" ())
    "id" 8 true "name" 24 true rfl
  exact ⟨h.2.1, h.2.2.2.1, h.2.2.2.2⟩

/-! ## Claim C1: comparator laws and the stable multi-key sort -/

/-- Characterization: char-list comparison is `eq` exactly on equal lists. -/
theorem cmpCharList_eq_iff : ∀ (as bs : List Char), cmpCharList as bs = .eq ↔ as = bs
  | [], [] => by simp [cmpCharList]
  | [], _ :: _ => by simp [cmpCharList]
  | _ :: _, [] => by simp [cmpCharList]
  | a :: as, b :: bs => by
    simp only [cmpCharList]
    cases hc : compare a.toNat b.toNat with
    | eq =>
      have hab : a = b := Char.eq_of_val_eq (UInt32.ext (Nat.compare_eq_eq.mp hc))
      simp [hab, cmpCharList_eq_iff as bs]
    | lt =>
      constructor
      · intro h; cases h
      · intro h
        injection h with h1 _
        subst h1
        rw [Nat.compare_eq_eq.mpr rfl] at hc
        cases hc
    | gt =>
      constructor
      · intro h; cases h
      · intro h
        injection h with h1 _
        subst h1
        rw [Nat.compare_eq_eq.mpr rfl] at hc
        cases hc

/-- Char-list comparison is antisymmetric under `Ordering.swap`. -/
theorem cmpCharList_swap : ∀ (as bs : List Char),
    cmpCharList bs as = (cmpCharList as bs).swap
  | [], [] => rfl
  | [], _ :: _ => rfl
  | _ :: _, [] => rfl
  | a :: as, b :: bs => by
    simp only [cmpCharList]
    have hs : compare b.toNat a.toNat = (compare a.toNat b.toNat).swap :=
      (Nat.compare_swap a.toNat b.toNat).symm
    cases hc : compare a.toNat b.toNat with
    | eq => rw [hc] at hs; simp [hs, Ordering.swap, cmpCharList_swap as bs]
    | lt => rw [hc] at hs; simp [hs, Ordering.swap]
    | gt => rw [hc] at hs; simp [hs, Ordering.swap]

/-- Char-list comparison: strict transitivity. -/
theorem cmpCharList_lt_trans (as : List Char) : ∀ (bs cs : List Char),
    cmpCharList as bs = .lt → cmpCharList bs cs = .lt → cmpCharList as cs = .lt := by
  induction as with
  | nil =>
    intro bs cs h1 h2
    cases bs with
    | nil => simp [cmpCharList] at h1
    | cons b bs2 =>
      cases cs with
      | nil => simp [cmpCharList] at h2
      | cons c cs2 => simp [cmpCharList]
  | cons a as2 ih =>
    intro bs cs h1 h2
    cases bs with
    | nil => simp [cmpCharList] at h1
    | cons b bs2 =>
      cases cs with
      | nil => simp [cmpCharList] at h2
      | cons c cs2 =>
        simp only [cmpCharList] at h1 h2 ⊢
        cases hab : compare a.toNat b.toNat with
        | gt => rw [hab] at h1; cases h1
        | lt =>
          have hab2 := Nat.compare_eq_lt.mp hab
          cases hbc : compare b.toNat c.toNat with
          | gt => rw [hbc] at h2; cases h2
          | lt =>
            have hbc2 := Nat.compare_eq_lt.mp hbc
            rw [Nat.compare_eq_lt.mpr (by omega)]
          | eq =>
            have hbc2 := Nat.compare_eq_eq.mp hbc
            rw [Nat.compare_eq_lt.mpr (by omega)]
        | eq =>
          rw [hab] at h1
          have hab2 := Nat.compare_eq_eq.mp hab
          cases hbc : compare b.toNat c.toNat with
          | gt => rw [hbc] at h2; cases h2
          | lt =>
            have hbc2 := Nat.compare_eq_lt.mp hbc
            rw [Nat.compare_eq_lt.mpr (by omega)]
          | eq =>
            have hbc2 := Nat.compare_eq_eq.mp hbc
            rw [hbc] at h2
            rw [Nat.compare_eq_eq.mpr (by omega)]
            exact ih bs2 cs2 h1 h2

/-- String comparison is `eq` exactly on equal strings. -/
theorem strCmp_eq_iff (a b : String) : strCmp a b = .eq ↔ a = b := by
  constructor
  · intro h
    have := (cmpCharList_eq_iff a.data b.data).mp h
    cases a; cases b
    exact congrArg String.mk this
  · intro h
    subst h
    exact (cmpCharList_eq_iff _ _).mpr rfl

/-- Pair comparison is `eq` exactly on equal pairs. -/
theorem cmpNatPair_eq_iff (a b : Nat × Nat) : cmpNatPair a b = .eq ↔ a = b := by
  unfold cmpNatPair
  cases h : compare a.1 b.1 with
  | eq =>
    have h1 := Nat.compare_eq_eq.mp h
    simp [Nat.compare_eq_eq, Prod.ext_iff, h1]
  | lt =>
    have h1 := Nat.compare_eq_lt.mp h
    constructor
    · intro hh; cases hh
    · rintro rfl; exact absurd h1 (lt_irrefl _)
  | gt =>
    have h1 := Nat.compare_eq_gt.mp h
    constructor
    · intro hh; cases hh
    · rintro rfl; exact absurd h1 (lt_irrefl _)

/-- Pair comparison is antisymmetric under `Ordering.swap`. -/
theorem cmpNatPair_swap (a b : Nat × Nat) : cmpNatPair b a = (cmpNatPair a b).swap := by
  unfold cmpNatPair
  have hs : compare b.1 a.1 = (compare a.1 b.1).swap := (Nat.compare_swap a.1 b.1).symm
  have hs2 : compare b.2 a.2 = (compare a.2 b.2).swap := (Nat.compare_swap a.2 b.2).symm
  cases hc : compare a.1 b.1 with
  | eq => rw [hc] at hs; simp [hs, hs2, Ordering.swap]
  | lt => rw [hc] at hs; simp [hs, Ordering.swap]
  | gt => rw [hc] at hs; simp [hs, Ordering.swap]

/-- Pair comparison: strict transitivity. -/
theorem cmpNatPair_lt_trans (a b c : Nat × Nat) (h1 : cmpNatPair a b = .lt)
    (h2 : cmpNatPair b c = .lt) : cmpNatPair a c = .lt := by
  unfold cmpNatPair at h1 h2 ⊢
  cases hab : compare a.1 b.1 with
  | gt => rw [hab] at h1; cases h1
  | lt =>
    have hab2 := Nat.compare_eq_lt.mp hab
    cases hbc : compare b.1 c.1 with
    | gt => rw [hbc] at h2; cases h2
    | lt => rw [Nat.compare_eq_lt.mpr (by have := Nat.compare_eq_lt.mp hbc; omega)]
    | eq => rw [Nat.compare_eq_lt.mpr (by have := Nat.compare_eq_eq.mp hbc; omega)]
  | eq =>
    rw [hab] at h1
    have hab2 := Nat.compare_eq_eq.mp hab
    cases hbc : compare b.1 c.1 with
    | gt => rw [hbc] at h2; cases h2
    | lt => rw [Nat.compare_eq_lt.mpr (by have := Nat.compare_eq_lt.mp hbc; omega)]
    | eq =>
      rw [hbc] at h2
      have hbc2 := Nat.compare_eq_eq.mp hbc
      rw [Nat.compare_eq_eq.mpr (by omega)]
      cases hab3 : compare a.2 b.2 with
      | gt => rw [hab3] at h1; cases h1
      | eq => rw [hab3] at h1; cases h1
      | lt =>
        have := Nat.compare_eq_lt.mp hab3
        have := Nat.compare_eq_lt.mp h2
        exact Nat.compare_eq_lt.mpr (by omega)

/-- Same-variant comparison succeeds exactly on equal variant tags. -/
theorem vcmp_isSome_iff (a b : Value) : (vcmp a b).isSome ↔ a.tag = b.tag := by
  cases a <;> cases b <;> simp [vcmp, Value.tag]

/-- An `eq` comparison means the two values are literally equal. -/
theorem vcmp_eq {a b : Value} (h : vcmp a b = some .eq) : a = b := by
  cases a <;> cases b <;> simp only [vcmp, Option.some.injEq] at h <;> try cases h
  case S.S s1 s2 => exact congrArg Value.S ((strCmp_eq_iff s1 s2).mp h)
  case U.U n1 n2 => exact congrArg Value.U (Nat.compare_eq_eq.mp h)
  case B.B n1 n2 => exact congrArg Value.B (Nat.compare_eq_eq.mp h)
  case Age.Age s1 n1 s2 n2 =>
    have := (cmpNatPair_eq_iff (s1, n1) (s2, n2)).mp h
    injection this with h1 h2
    rw [h1, h2]

/-- Comparison of a value with itself is `eq`. -/
theorem vcmp_refl (a : Value) : vcmp a a = some .eq := by
  cases a with
  | S s => exact congrArg some ((strCmp_eq_iff s s).mpr rfl)
  | U n => exact congrArg some (Nat.compare_eq_eq.mpr rfl)
  | B n => exact congrArg some (Nat.compare_eq_eq.mpr rfl)
  | Age s n => exact congrArg some ((cmpNatPair_eq_iff _ _).mpr rfl)

/-- Value comparison is antisymmetric under `Ordering.swap`. -/
theorem vcmp_swap {a b : Value} {o : Ordering} (h : vcmp a b = some o) :
    vcmp b a = some o.swap := by
  cases a <;> cases b <;> simp only [vcmp, Option.some.injEq] at h ⊢ <;> try cases h
  case S.S s1 s2 => exact cmpCharList_swap s1.data s2.data
  case U.U n1 n2 => exact (Nat.compare_swap n1 n2).symm
  case B.B n1 n2 => exact (Nat.compare_swap n1 n2).symm
  case Age.Age s1 n1 s2 n2 => exact cmpNatPair_swap (s1, n1) (s2, n2)

/-- Value comparison: strict transitivity. -/
theorem vcmp_lt_trans {a b c : Value} (h1 : vcmp a b = some .lt)
    (h2 : vcmp b c = some .lt) : vcmp a c = some .lt := by
  cases a <;> cases b <;> simp only [vcmp, Option.some.injEq] at h1 <;> try cases h1
  all_goals cases c <;> simp only [vcmp, Option.some.injEq] at h2 ⊢ <;> try cases h2
  case S.S.S => exact cmpCharList_lt_trans _ _ _ h1 h2
  case U.U.U => exact Nat.compare_eq_lt.mpr (Nat.lt_trans (Nat.compare_eq_lt.mp h1) (Nat.compare_eq_lt.mp h2))
  case B.B.B => exact Nat.compare_eq_lt.mpr (Nat.lt_trans (Nat.compare_eq_lt.mp h1) (Nat.compare_eq_lt.mp h2))
  case Age.Age.Age => exact cmpNatPair_lt_trans _ _ _ h1 h2

/-- An `eq` key comparison means equal values (ascending or descending). -/
theorem cmpValue_eq {so : SortOrder} {a b : Value} (h : cmpValue so a b = some .eq) :
    a = b := by
  unfold cmpValue at h
  by_cases hso : so.ascending
  · rw [if_pos hso] at h; exact vcmp_eq h
  · rw [if_neg hso] at h; exact (vcmp_eq h).symm

/-- Key comparison of a value with itself is `eq`. -/
theorem cmpValue_refl (so : SortOrder) (v : Value) : cmpValue so v v = some .eq := by
  unfold cmpValue; split <;> exact vcmp_refl v

/-- Key comparison is antisymmetric under `Ordering.swap`. -/
theorem cmpValue_swap {so : SortOrder} {a b : Value} {o : Ordering}
    (h : cmpValue so a b = some o) : cmpValue so b a = some o.swap := by
  unfold cmpValue at h ⊢
  by_cases hso : so.ascending
  · rw [if_pos hso] at h ⊢; exact vcmp_swap h
  · rw [if_neg hso] at h ⊢; exact vcmp_swap h

/-- Key comparison: strict transitivity. -/
theorem cmpValue_lt_trans {so : SortOrder} {a b c : Value}
    (h1 : cmpValue so a b = some .lt) (h2 : cmpValue so b c = some .lt) :
    cmpValue so a c = some .lt := by
  unfold cmpValue at h1 h2 ⊢
  by_cases hso : so.ascending
  · rw [if_pos hso] at h1 h2 ⊢; exact vcmp_lt_trans h1 h2
  · rw [if_neg hso] at h1 h2 ⊢; exact vcmp_lt_trans h2 h1

/-- Key comparison succeeds exactly on equal variant tags. -/
theorem cmpValue_isSome_iff (so : SortOrder) (a b : Value) :
    (cmpValue so a b).isSome ↔ a.tag = b.tag := by
  unfold cmpValue; split
  · exact vcmp_isSome_iff a b
  · rw [vcmp_isSome_iff]; exact eq_comm

/-- The multi-key comparator is antisymmetric under `Ordering.swap`. -/
theorem cmpRows_swap {order : List SortOrder} : ∀ {a b : Row} {o : Ordering},
    cmpRows order a b = some o → cmpRows order b a = some o.swap := by
  induction order with
  | nil =>
    intro a b o h
    simp only [cmpRows, Option.some.injEq] at h
    subst h
    rfl
  | cons so rest ih =>
    intro a b o h
    cases hA : a.get so.column with
    | none => simp [cmpRows, hA] at h
    | some av =>
      cases hB : b.get so.column with
      | none => simp [cmpRows, hA, hB] at h
      | some bv =>
        simp only [cmpRows, hA, hB] at h
        cases hv : cmpValue so av bv with
        | none => simp only [hv] at h; cases h
        | some ov =>
          simp only [hv] at h
          have hv2 := cmpValue_swap hv
          cases ov with
          | eq =>
            have hv2e : cmpValue so bv av = some .eq := by simpa [Ordering.swap] using hv2
            simp only [cmpRows, hB, hA, hv2e]
            exact ih h
          | lt =>
            injection h with h; subst h
            have hv2g : cmpValue so bv av = some .gt := by simpa [Ordering.swap] using hv2
            simp only [cmpRows, hB, hA, hv2g]
            rfl
          | gt =>
            injection h with h; subst h
            have hv2l : cmpValue so bv av = some .lt := by simpa [Ordering.swap] using hv2
            simp only [cmpRows, hB, hA, hv2l]
            rfl

/-- Rows comparing `eq` share one value per sort column. -/
theorem cmpRows_eq_elim {order : List SortOrder} : ∀ {a b : Row},
    cmpRows order a b = some .eq →
    ∀ so ∈ order, ∃ v, a.get so.column = some v ∧ b.get so.column = some v := by
  induction order with
  | nil => intro a b _ so hso; cases hso
  | cons so0 rest ih =>
    intro a b h so hso
    cases hA : a.get so0.column with
    | none => simp [cmpRows, hA] at h
    | some av =>
      cases hB : b.get so0.column with
      | none => simp [cmpRows, hA, hB] at h
      | some bv =>
        simp only [cmpRows, hA, hB] at h
        cases hv : cmpValue so0 av bv with
        | none => simp only [hv] at h; cases h
        | some ov =>
          simp only [hv] at h
          cases ov with
          | lt => cases h
          | gt => cases h
          | eq =>
            have hab : av = bv := cmpValue_eq hv
            rcases List.mem_cons.mp hso with rfl | hso2
            · exact ⟨av, hA, by rw [hB, hab]⟩
            · exact ih h so hso2

/-- Rows sharing one value per sort column compare `eq`. -/
theorem cmpRows_eq_intro {order : List SortOrder} : ∀ {a b : Row},
    (∀ so ∈ order, ∃ v, a.get so.column = some v ∧ b.get so.column = some v) →
    cmpRows order a b = some .eq := by
  induction order with
  | nil => intro a b _; rfl
  | cons so0 rest ih =>
    intro a b h
    obtain ⟨v, hA, hB⟩ := h so0 (List.mem_cons_self _ _)
    simp only [cmpRows, hA, hB, cmpValue_refl]
    exact ih (fun so hso => h so (List.mem_cons_of_mem _ hso))

/-- Conformance of a row to a variant assignment: every sort column holds a
value of the assigned variant (the claim's same-variant hypothesis, which is
exactly the condition under which the comparator of `Table::output` cannot
panic). -/
def rowConformsB (tags : String → VTag) (order : List SortOrder) (r : Row) : Bool :=
  order.all (fun so =>
    match r.get so.column with
    | some v => v.tag == tags so.column
    | none => false)

/-- Comparison of two conforming rows never panics. -/
theorem cmpRows_isSome_of_conforms (tags : String → VTag) :
    ∀ (order : List SortOrder) (a b : Row),
    rowConformsB tags order a = true → rowConformsB tags order b = true →
    (cmpRows order a b).isSome := by
  intro order
  induction order with
  | nil => intro a b _ _; simp [cmpRows]
  | cons so rest ih =>
    intro a b ha hb
    simp only [rowConformsB, List.all_cons, Bool.and_eq_true] at ha hb
    obtain ⟨ha1, ha2⟩ := ha
    obtain ⟨hb1, hb2⟩ := hb
    cases hA : a.get so.column with
    | none => simp only [hA] at ha1; cases ha1
    | some av =>
      cases hB : b.get so.column with
      | none => simp only [hB] at hb1; cases hb1
      | some bv =>
        simp only [hA] at ha1
        simp only [hB] at hb1
        have hat : av.tag = tags so.column := by simpa using ha1
        have hbt : bv.tag = tags so.column := by simpa using hb1
        have hs : (cmpValue so av bv).isSome :=
          (cmpValue_isSome_iff so av bv).mpr (by rw [hat, hbt])
        obtain ⟨ov, hov⟩ := Option.isSome_iff_exists.mp hs
        cases ov with
        | eq =>
          simp only [cmpRows, hA, hB, hov]
          exact ih a b ha2 hb2
        | lt => simp [cmpRows, hA, hB, hov]
        | gt => simp [cmpRows, hA, hB, hov]

/-- Transitivity of the row order on rows whose pairwise comparisons are
defined (lexicographic composition of the per-key orders). -/
theorem cmpRows_le_trans : ∀ (order : List SortOrder) (a b c : Row),
    (cmpRows order a b).isSome → (cmpRows order b c).isSome →
    (cmpRows order a c).isSome →
    cmpRows order a b ≠ some .gt → cmpRows order b c ≠ some .gt →
    cmpRows order a c ≠ some .gt := by
  intro order
  induction order with
  | nil => intro a b c _ _ _ _ _; simp [cmpRows]
  | cons so rest ih =>
    intro a b c sab sbc sac nab nbc
    cases hA : a.get so.column with
    | none => simp [cmpRows, hA] at sab
    | some av =>
    cases hB : b.get so.column with
    | none => simp [cmpRows, hA, hB] at sab
    | some bv =>
    cases hC : c.get so.column with
    | none => simp [cmpRows, hB, hC] at sbc
    | some cv =>
    cases hvab : cmpValue so av bv with
    | none => simp [cmpRows, hA, hB, hvab] at sab
    | some oab =>
    cases hvbc : cmpValue so bv cv with
    | none => simp [cmpRows, hB, hC, hvbc] at sbc
    | some obc =>
    have noab : oab ≠ .gt := by
      intro hh; subst hh
      exact nab (by simp [cmpRows, hA, hB, hvab])
    have nobc : obc ≠ .gt := by
      intro hh; subst hh
      exact nbc (by simp [cmpRows, hB, hC, hvbc])
    cases oab with
    | gt => exact absurd rfl noab
    | lt =>
      cases obc with
      | gt => exact absurd rfl nobc
      | lt =>
        have hvac : cmpValue so av cv = some .lt := cmpValue_lt_trans hvab hvbc
        simp [cmpRows, hA, hC, hvac]
      | eq =>
        have hbc2 : bv = cv := cmpValue_eq hvbc
        subst hbc2
        simp [cmpRows, hA, hC, hvab]
    | eq =>
      have hab2 : av = bv := cmpValue_eq hvab
      subst hab2
      cases obc with
      | gt => exact absurd rfl nobc
      | lt => simp [cmpRows, hA, hC, hvbc]
      | eq =>
        have hbc2 : av = cv := cmpValue_eq hvbc
        subst hbc2
        have sab2 : (cmpRows rest a b).isSome := by
          simpa [cmpRows, hA, hB, hvab] using sab
        have sbc2 : (cmpRows rest b c).isSome := by
          simpa [cmpRows, hB, hC, hvbc] using sbc
        have sac2 : (cmpRows rest a c).isSome := by
          simpa [cmpRows, hA, hC, cmpValue_refl] using sac
        have nab2 : cmpRows rest a b ≠ some .gt := by
          intro hh
          exact nab (by simp [cmpRows, hA, hB, hvab, hh])
        have nbc2 : cmpRows rest b c ≠ some .gt := by
          intro hh
          exact nbc (by simp [cmpRows, hB, hC, hvbc, hh])
        intro hh
        apply ih a b c sab2 sbc2 sac2 nab2 nbc2
        simpa [cmpRows, hA, hC, cmpValue_refl] using hh

/-- The row order is total (using antisymmetry of the comparator; a row pair
whose comparison is undefined is vacuously `≤` in both directions). -/
theorem rowLE_total (order : List SortOrder) (a b : Row) :
    rowLE order a b ∨ rowLE order b a := by
  by_cases h : cmpRows order a b = some .gt
  · right
    rw [rowLE, cmpRows_swap h]
    simp [Ordering.swap]
  · left
    exact h

/-- C1: when a sort order is configured and every row holds a value of the
assigned variant for every sort column, the sort step of `Table::output` is
a stable lexicographic multi-key sort: the output rows are a permutation of
the input, adjacent-sorted under the multi-key comparator (`cmpRows`
evaluates the configured (column, direction) pairs in order and the first
non-equal pair decides), and rows equal under every pair keep their
insertion order (the subsequence of rows comparator-equal to any fixed row
is unchanged). -/
theorem C1_stable_multikey_sort (t : Table) (order : List SortOrder)
    (tags : String → VTag) (hso : t.sort_order = some order)
    (hconf : ∀ r ∈ t.data, rowConformsB tags order r = true) :
    t.sortedData.Perm t.data ∧
    t.sortedData.Pairwise (rowLE order) ∧
    ∀ r0 : Row,
      t.sortedData.filter (fun r => decide (cmpRows order r r0 = some Ordering.eq)) =
        t.data.filter (fun r => decide (cmpRows order r r0 = some Ordering.eq)) := by
  have hsd : t.sortedData = sortRows order t.data := by
    rw [Table.sortedData, hso]
  refine ⟨?_, ?_, ?_⟩
  · rw [hsd, sortRows]
    exact List.perm_insertionSort _ _
  · rw [hsd, sortRows]
    haveI : IsTotal {r : Row // r ∈ t.data} (fun x y => rowLE order x.val y.val) :=
      ⟨fun x y => rowLE_total order x.val y.val⟩
    haveI : IsTrans {r : Row // r ∈ t.data} (fun x y => rowLE order x.val y.val) := by
      refine ⟨fun x y z hxy hyz => ?_⟩
      have sxy := cmpRows_isSome_of_conforms tags order x.val y.val
        (hconf _ x.property) (hconf _ y.property)
      have syz := cmpRows_isSome_of_conforms tags order y.val z.val
        (hconf _ y.property) (hconf _ z.property)
      have sxz := cmpRows_isSome_of_conforms tags order x.val z.val
        (hconf _ x.property) (hconf _ z.property)
      exact cmpRows_le_trans order x.val y.val z.val sxy syz sxz hxy hyz
    have hmap := List.map_insertionSort
      (fun x y : {r : Row // r ∈ t.data} => rowLE order x.val y.val) (rowLE order)
      Subtype.val t.data.attach (fun a _ b _ => Iff.rfl)
    rw [List.attach_map_subtype_val] at hmap
    rw [← hmap]
    have hs : List.Sorted (fun x y : {r : Row // r ∈ t.data} => rowLE order x.val y.val)
        (List.insertionSort (fun x y => rowLE order x.val y.val) t.data.attach) :=
      List.sorted_insertionSort (fun x y => rowLE order x.val y.val) t.data.attach
    have hp : List.Pairwise (fun x y : {r : Row // r ∈ t.data} => rowLE order x.val y.val)
        (List.insertionSort (fun x y => rowLE order x.val y.val) t.data.attach) := hs
    exact List.pairwise_map.mpr hp
  · intro r0
    rw [hsd, sortRows]
    have hsub : List.Sublist
        (t.data.filter (fun r => decide (cmpRows order r r0 = some Ordering.eq)))
        t.data := List.filter_sublist _
    have hpw : (t.data.filter
        (fun r => decide (cmpRows order r r0 = some Ordering.eq))).Pairwise (rowLE order) := by
      apply List.pairwise_of_forall_mem_list
      intro x hx y hy
      have hxp := of_decide_eq_true (List.mem_filter.mp hx).2
      have hyp := of_decide_eq_true (List.mem_filter.mp hy).2
      have hxy : cmpRows order x y = some .eq := by
        apply cmpRows_eq_intro
        intro so hso2
        obtain ⟨vx, hvx, hv0x⟩ := cmpRows_eq_elim hxp so hso2
        obtain ⟨vy, hvy, hv0y⟩ := cmpRows_eq_elim hyp so hso2
        refine ⟨vx, hvx, ?_⟩
        rw [hv0x] at hv0y
        injection hv0y with hv
        rw [hvy, hv]
      rw [rowLE, hxy]
      simp
    have hstep := List.sublist_insertionSort hpw hsub
    have h2 : List.Sublist
        (t.data.filter (fun r => decide (cmpRows order r r0 = some Ordering.eq)))
        ((List.insertionSort (rowLE order) t.data).filter
          (fun r => decide (cmpRows order r r0 = some Ordering.eq))) := by
      have h3 := hstep.filter (fun r => decide (cmpRows order r r0 = some Ordering.eq))
      rwa [List.filter_eq_self.mpr (fun a ha => (List.mem_filter.mp ha).2)] at h3
    have hlen : ((List.insertionSort (rowLE order) t.data).filter
        (fun r => decide (cmpRows order r r0 = some Ordering.eq))).length =
        (t.data.filter (fun r => decide (cmpRows order r r0 = some Ordering.eq))).length :=
      ((List.perm_insertionSort (rowLE order) t.data).filter _).length_eq
    exact (h2.eq_of_length hlen.symm).symm

/-- Row with an integer `id` and a string `name`, as in the table.rs unit
tests. -/
def c1Row (id : Nat) (name : String) : Row :=
  (Row.empty.add_u64 "id" id).add_str "name" name

/-- The `basic_data_dups` row set of the table.rs unit tests. -/
def c1Rows : List Row :=
  [c1Row 1 "john", c1Row 4 "bruce", c1Row 2 "albert", c1Row 2 "demonstration",
   c1Row 3 "zeta", c1Row 5 "almond", c1Row 1 "almond", c1Row 2 "carrot"]

/-- The dups table sorted by `"id,name"`. -/
def c1TableIdName : Table :=
  { header := true, tabsep := false, parseable := false,
    outputs := [⟨"id", 8, true⟩, ⟨"name", 24, true⟩], output_filter := none,
    sort_order := some [⟨"id", true⟩, ⟨"name", true⟩], data := c1Rows }

/-- The dups table sorted by `"name,id"`. -/
def c1TableNameId : Table :=
  { c1TableIdName with sort_order := some [⟨"name", true⟩, ⟨"id", true⟩] }

/-- Variant assignment of the test columns. -/
def c1Tags : String → VTag := fun c => if c = "id" then .u else .s

/-- C1 witness: `C1_stable_multikey_sort` applied to the dups table sorted
by `"id,name"`, together with the concrete sorted sequences for `"id,name"`
and `"name,id"`: the two orders differ, match the key priority, and break
ties by the secondary key exactly as in the `basic_sort_idname` and
`basic_sort_nameid` unit tests. -/
theorem C1_witness :
    c1TableIdName.sortedData.Perm c1TableIdName.data ∧
    c1TableIdName.sortedData.Pairwise (rowLE [⟨"id", true⟩, ⟨"name", true⟩]) ∧
    c1TableIdName.sortedData.filter
      (fun r => decide (cmpRows [⟨"id", true⟩, ⟨"name", true⟩] r (c1Row 2 "albert") =
        some Ordering.eq)) =
      c1TableIdName.data.filter
        (fun r => decide (cmpRows [⟨"id", true⟩, ⟨"name", true⟩] r (c1Row 2 "albert") =
          some Ordering.eq)) ∧
    c1TableIdName.sortedData =
      [c1Row 1 "almond", c1Row 1 "john", c1Row 2 "albert", c1Row 2 "carrot",
       c1Row 2 "demonstration", c1Row 3 "zeta", c1Row 4 "bruce", c1Row 5 "almond"] ∧
    c1TableNameId.sortedData =
      [c1Row 2 "albert", c1Row 1 "almond", c1Row 5 "almond", c1Row 4 "bruce",
       c1Row 2 "carrot", c1Row 2 "demonstration", c1Row 1 "john", c1Row 3 "zeta"] := by
  have h := C1_stable_multikey_sort c1TableIdName [⟨"id", true⟩, ⟨"name", true⟩]
    c1Tags rfl (by decide)
  exact ⟨h.1, h.2.1, h.2.2 (c1Row 2 "albert"), by decide, by decide⟩
